import Mathlib

/-!
# Verification of `marshmallow_dataclass.lazy_class_attribute`

A shallow embedding of `src/marshmallow_dataclass/lazy_class_attribute.py`:
a thread-safe, memoizing, class-scoped lazily-computed attribute
(`LazyClassAttribute`), together with its per-thread initialization-depth
tracker.

The embedding has four layers:

1. the thread-local depth tracker (`_get_init_depth`, `_increment_init_depth`,
   `_decrement_init_depth`), modelled on the thread-local storage cell
   `_init_depth.depth`, which is either unset (`Option.none`) or holds an
   integer;
2. `lockSection`: a pure function modelling one execution of the
   lock-protected decision block of `LazyClassAttribute.__get__`
   (lines 94-120 of the source), returning the outcome (return a value,
   wait on an event, or claim initialization) and the updated slot state;
3. `getFull`: a sequential interpreter of one whole `__get__` call by a
   single thread (preamble checks, one loop iteration, the
   initialize / publish / cleanup path), used for the error-handling and
   retry claims;
4. `Step` / `Reachable`: an interleaving small-step transition system of
   arbitrarily many threads concurrently executing `__get__` on one fresh
   slot whose computation always succeeds, used for the concurrency claims.

Python values are modelled by `PyVal` (identity = constructor argument),
with `PyVal.none` playing the role of Python's `None`.  The owner class's
`__dict__` entry for the attribute name is modelled by `Stored`: it holds
either the descriptor itself (`Stored.slot`) or a plain value
(`Stored.pv v`, where an absent entry is identified with `Stored.pv .none`
because `cls.__dict__.get(name)` returns `None` in both cases).
-/

/-- A Python value: `PyVal.none` is Python's `None`; `PyVal.obj n` is any
other object, with `n` serving as the object's identity. -/
inductive PyVal where
  | none
  | obj (n : Nat)
deriving DecidableEq, Repr

/-- The owner class's `__dict__` entry for the slot's name:
`cls.__dict__.get(name)` yields either this very descriptor (`slot`) or a
Python value (`pv v`; an absent entry and a stored `None` both read back as
`None`, so both are `pv .none`). -/
inductive Stored where
  | slot
  | pv (v : PyVal)
deriving DecidableEq, Repr

/-! ## Thread-local initialization depth tracker

The module-level `_init_depth` thread-local has one cell per thread; the
cell is either unset (the thread never touched it) or holds the integer
last stored by `_increment_init_depth` / `_decrement_init_depth`.  We model
one thread's cell as `Option Int`. (`_get_init_depth` also guards against a
non-integer having been stored from outside the module; no code in the
module can store a non-integer, so the cell is `Option Int` here and the
`isinstance` guard collapses to `Option.getD`.) -/

/-- `_get_init_depth`: `getattr(_init_depth, "depth", 0)`, defaulting the
unset cell to `0`. -/
def _get_init_depth (cell : Option Int) : Int :=
  cell.getD 0

/-- `_increment_init_depth`: store `depth + 1`. -/
def _increment_init_depth (cell : Option Int) : Option Int :=
  some (_get_init_depth cell + 1)

/-- `_decrement_init_depth`: store `depth - 1`, floored at `0`
(`if new_depth <= 0: _init_depth.depth = 0`). -/
def _decrement_init_depth (cell : Option Int) : Option Int :=
  let depth : Int := _get_init_depth cell
  let new_depth : Int := depth - 1
  if new_depth ≤ 0 then some 0 else some new_depth

/-! ## The slot -/

/-- The mutable state of one `LazyClassAttribute` instance (the fields of
`__slots__` except `func`, which is passed to the models explicitly as the
`compute` parameter, since Lean functions are pure).  Events
(`threading.Event`) are identified by `Nat` ids; their set/unset flags live
in the surrounding state. -/
structure LazyClassAttribute where
  name : Option String
  forward_value : PyVal
  initialized_event : Option Nat
  initializing : Bool
  initializing_thread_id : Option Nat
deriving DecidableEq, Repr

namespace LazyClassAttribute

/-- `__init__`: `func` is kept outside the structure; `_initialized_event`
starts `None`, `_initializing` starts `False`, `_initializing_thread_id`
starts `None`. -/
def init (name : Option String) (forward_value : PyVal) : LazyClassAttribute :=
  { name := name
    forward_value := forward_value
    initialized_event := Option.none
    initializing := false
    initializing_thread_id := Option.none }

/-- `__init__` with its defaults: `name=None, forward_value=None`. -/
def initDefault : LazyClassAttribute :=
  init Option.none PyVal.none

/-- `__set_name__(owner, name)`: bind the slot to `name` only if not
already bound (the `owner` argument is unused by the source). -/
def set_name (s : LazyClassAttribute) (name : String) : LazyClassAttribute :=
  if s.name = Option.none then { s with name := some name } else s

end LazyClassAttribute

/-! ## The lock-protected decision section of `__get__`

Lines 94-120 of the source: everything inside `with self._lock:` in one
loop iteration.  Inputs: the slot's state, the owner storage, the calling
thread's id and current depth, and a fresh event id (used only if a new
`threading.Event()` is allocated).  Output: the outcome and the updated
slot state. -/

/-- Outcome of one execution of the lock-protected block:
`ret v` = `return v` from `__get__`; `wait e` = fall through to
`event.wait()` on event `e`; `claim e` = this thread set
`_initializing = True` (with fresh event `e`) and will run `self.func()`. -/
inductive LockOutcome where
  | ret (v : PyVal)
  | wait (e : Nat)
  | claim (e : Nat)
deriving DecidableEq, Repr

/-- One execution of the `with self._lock:` block of `__get__`
(source lines 94-120), for calling thread `tid` whose thread-local depth is
`depth`, with owner storage `storage`; `fresh` is the id of the
`threading.Event()` allocated if one is needed. -/
def lockSection (s : LazyClassAttribute) (storage : Stored) (tid : Nat)
    (depth : Int) (fresh : Nat) : LockOutcome × LazyClassAttribute :=
  -- current = cls.__dict__.get(name); if current is not self and current is not None: return getattr(cls, name)
  match storage with
  | Stored.pv v =>
    if v ≠ PyVal.none then (LockOutcome.ret v, s)
    else lockSectionUnresolved s tid depth fresh
  | Stored.slot => lockSectionUnresolved s tid depth fresh
where
  /-- The part of the lock block reached when the storage check falls
  through (`current is self or current is None`): source lines 100-120. -/
  lockSectionUnresolved (s : LazyClassAttribute) (tid : Nat) (depth : Int)
      (fresh : Nat) : LockOutcome × LazyClassAttribute :=
    if s.initializing then
      if s.initializing_thread_id = some tid then
        (LockOutcome.ret s.forward_value, s)
      else if s.forward_value ≠ PyVal.none ∧ depth > 0 then
        (LockOutcome.ret s.forward_value, s)
      else
        match s.initialized_event with
        | some e => (LockOutcome.wait e, s)
        | Option.none =>
          (LockOutcome.wait fresh, { s with initialized_event := some fresh })
    else
      (LockOutcome.claim fresh,
        { s with
          initializing := true
          initializing_thread_id := some tid
          initialized_event := some fresh })

/-! ## Sequential interpreter of one `__get__` call

`getFull` models one complete call of `LazyClassAttribute.__get__` executed
by a single thread with no interleaving: the preamble checks (source lines
76-89), then one iteration of the `while True:` loop.  In a single-threaded
run the only way a second iteration can begin is by returning from
`event.wait()`, which never happens with no other thread to set the event,
so the `wait` outcome is reported as `blocked`.  `compute` is the result of
`self.func()`: `Except.ok v` if it returns `v`, `Except.error e` if it
raises `e`. -/

/-- The state around the slot, from the calling thread's viewpoint: the
owner storage for the slot's name, the thread's `_init_depth.depth` cell,
the set/unset flags of all events, and the next fresh event id. -/
structure Ctx where
  storage : Stored
  depthCell : Option Int
  eventsSet : Nat → Bool
  nextEvent : Nat

/-- Mark event `k` as set (`event.set()`). -/
def setFlag (f : Nat → Bool) (k : Nat) : Nat → Bool :=
  fun n => if n = k then true else f n

/-- `getattr(cls, name)` after the storage check: if the owner storage
holds a plain value, attribute lookup yields it; if it still holds this
very descriptor, the lookup re-enters `__get__` on the same thread while
`_initializing` is `True` with `_initializing_thread_id` equal to this
thread, which returns `forward_value` (source lines 100-102). -/
def storageVal (st : Stored) (fv : PyVal) : PyVal :=
  match st with
  | Stored.pv v => v
  | Stored.slot => fv

/-- Result of one `__get__` call:
`ok v` = normal return of `v`;
`typeError` = `TypeError` from the preamble (no instance and no class, the
spec's `InvalidCallError`);
`attributeError` = `AttributeError` from the preamble (slot not bound to a
name, the spec's `BindingError`);
`raised e` = `self.func()` raised `e` and it propagated unmodified;
`blocked e` = the call reached `event.wait()` on event `e`, which never
returns in a single-threaded run. -/
inductive GetResult (E : Type) where
  | ok (v : PyVal)
  | typeError
  | attributeError
  | raised (e : E)
  | blocked (e : Nat)
deriving DecidableEq, Repr

/-- The `finally:` block of `__get__` (source lines 128-136): decrement the
depth, then under the lock reset `_initializing`, clear
`_initializing_thread_id`, swap out `_initialized_event` and set it. -/
def cleanup (s : LazyClassAttribute) (ctx : Ctx) : LazyClassAttribute × Ctx :=
  let ctx1 : Ctx := { ctx with depthCell := _decrement_init_depth ctx.depthCell }
  let event_to_set : Option Nat := s.initialized_event
  let s' : LazyClassAttribute :=
    { s with
      initializing := false
      initializing_thread_id := Option.none
      initialized_event := Option.none }
  match event_to_set with
  | some e => (s', { ctx1 with eventsSet := setFlag ctx1.eventsSet e })
  | Option.none => (s', ctx1)

/-- The body of `__get__` after the preamble (source lines 88-138), for one
loop iteration by a single thread.  The `nextEvent` counter is advanced
after every lock section; this over-approximates allocation (an id is
skipped when no event was allocated), which keeps ids fresh. -/
def getBody {E : Type} (s : LazyClassAttribute) (compute : Except E PyVal)
    (tid : Nat) (ctx : Ctx) : GetResult E × LazyClassAttribute × Ctx :=
  match lockSection s ctx.storage tid (_get_init_depth ctx.depthCell) ctx.nextEvent with
  | (LockOutcome.ret v, s') =>
    (GetResult.ok v, s', { ctx with nextEvent := ctx.nextEvent + 1 })
  | (LockOutcome.wait e, s') =>
    (GetResult.blocked e, s', { ctx with nextEvent := ctx.nextEvent + 1 })
  | (LockOutcome.claim _, s') =>
    -- should_initialize path: _increment_init_depth(); try: value = self.func() ...
    let ctx1 : Ctx :=
      { ctx with
        depthCell := _increment_init_depth ctx.depthCell
        nextEvent := ctx.nextEvent + 1 }
    match compute with
    | Except.ok value =>
      -- setattr(cls, name, value); return getattr(cls, name); then finally
      let ctx2 : Ctx := { ctx1 with storage := Stored.pv value }
      let r : PyVal := storageVal ctx2.storage s'.forward_value
      let (s'', ctx3) := cleanup s' ctx2
      (GetResult.ok r, s'', ctx3)
    | Except.error err =>
      -- the finally block still runs; the exception propagates unmodified
      let (s'', ctx3) := cleanup s' ctx1
      (GetResult.raised err, s'', ctx3)

/-- One complete `__get__(instance, cls)` call by thread `tid`
(source lines 75-138).  `typeof` models Python's `type(instance)`; the
owner class resolved from the arguments is the single owner whose storage
`ctx.storage` models. -/
def getFull {E : Type} (typeof : PyVal → Nat) (s : LazyClassAttribute)
    (compute : Except E PyVal) (inst : Option PyVal) (cls : Option Nat)
    (tid : Nat) (ctx : Ctx) : GetResult E × LazyClassAttribute × Ctx :=
  let resolvedCls : Option Nat :=
    match cls with
    | some c => some c
    | Option.none =>
      match inst with
      | some i => some (typeof i)
      | Option.none => Option.none
  match resolvedCls with
  | Option.none => (GetResult.typeError, s, ctx)
  | some _ =>
    match s.name with
    | Option.none => (GetResult.attributeError, s, ctx)
    | some _ => getBody s compute tid ctx

/-! ## Interleaving transition system

Arbitrarily many threads (ids = all of `Nat`) concurrently execute
`__get__` on one fresh, bound slot whose computation always succeeds and
returns the single value `cv` (the scenario of the spec's exactly-once
property: `compute` returns a fresh unique object).  Each atomic step is
either one full execution of the lock-protected block (sound because the
lock serializes those blocks) or one access to shared/thread-local state
outside the lock. -/

/-- Program counter of one thread inside `__get__`:
`start` = about to acquire the lock at the top of the loop;
`waiting e` = blocked in `event.wait()` on event `e`;
`entered` = claimed initialization, about to call `_increment_init_depth`;
`running` = about to call `self.func()`;
`publishing` = `self.func()` returned, about to `setattr(cls, name, value)`;
`reading` = about to evaluate `return getattr(cls, name)`;
`finishing r` = return value `r` recorded, about to run the `finally` block;
`done r` = returned `r` from `__get__`. -/
inductive PC where
  | start
  | waiting (e : Nat)
  | entered
  | running
  | publishing
  | reading
  | finishing (r : PyVal)
  | done (r : PyVal)
deriving DecidableEq, Repr

/-- Threads whose pc lies between claiming initialization and the end of
the `finally` block: exactly those that hold `should_initialize = True`. -/
def PC.inRegion : PC → Bool
  | PC.entered => true
  | PC.running => true
  | PC.publishing => true
  | PC.reading => true
  | PC.finishing _ => true
  | _ => false

/-- Threads that have run `_increment_init_depth` but not yet
`_decrement_init_depth`. -/
def PC.deep : PC → Bool
  | PC.running => true
  | PC.publishing => true
  | PC.reading => true
  | PC.finishing _ => true
  | _ => false

/-- Update a thread-indexed map at one thread id. -/
def upd {α : Type} (f : Nat → α) (t : Nat) (a : α) : Nat → α :=
  fun u => if u = t then a else f u

/-- Global state of the concurrent system: the slot, the owner storage,
each thread's depth cell and program counter, the event flags, a fresh
event counter, and the number of `self.func()` invocations so far. -/
structure GState where
  slot : LazyClassAttribute
  storage : Stored
  depth : Nat → Option Int
  pc : Nat → PC
  eventsSet : Nat → Bool
  nextEvent : Nat
  computeCount : Nat

/-- Initial state: a fresh slot bound to `nm` with forward value `fv`,
still installed in the owner's `__dict__`, no thread started. -/
def initG (fv : PyVal) (nm : String) : GState :=
  { slot := LazyClassAttribute.init (some nm) fv
    storage := Stored.slot
    depth := fun _ => Option.none
    pc := fun _ => PC.start
    eventsSet := fun _ => false
    nextEvent := 0
    computeCount := 0 }

/-- The pc a thread moves to after the lock-protected block. -/
def pcOfOutcome : LockOutcome → PC
  | LockOutcome.ret v => PC.done v
  | LockOutcome.wait e => PC.waiting e
  | LockOutcome.claim _ => PC.entered

/-- Effect of thread `t` executing the lock-protected block from `start`.
The fresh-event counter advances unconditionally (ids may be skipped;
freshness is all that matters). -/
def applyLock (g : GState) (t : Nat) : GState :=
  let p := lockSection g.slot g.storage t (_get_init_depth (g.depth t)) g.nextEvent
  { g with
    slot := p.2
    pc := upd g.pc t (pcOfOutcome p.1)
    nextEvent := g.nextEvent + 1 }

/-- Effect of thread `t` executing the `finally` block (source lines
128-136) with recorded return value `r`: decrement the depth, reset the
slot's initialization fields, and set the swapped-out event if any. -/
def applyCleanup (g : GState) (t : Nat) (r : PyVal) : GState :=
  let event_to_set : Option Nat := g.slot.initialized_event
  { g with
    slot :=
      { g.slot with
        initializing := false
        initializing_thread_id := Option.none
        initialized_event := Option.none }
    depth := upd g.depth t (_decrement_init_depth (g.depth t))
    pc := upd g.pc t (PC.done r)
    eventsSet :=
      match event_to_set with
      | some e => setFlag g.eventsSet e
      | Option.none => g.eventsSet }

/-- One atomic step of the concurrent system in which every invocation of
`self.func()` succeeds and returns `cv`. -/
inductive Step (cv : PyVal) : GState → GState → Prop where
  /-- Thread `t` runs the `with self._lock:` block from the loop head. -/
  | lock (g : GState) (t : Nat) (h : g.pc t = PC.start) :
    Step cv g (applyLock g t)
  /-- Thread `t` runs `_increment_init_depth()`. -/
  | incr (g : GState) (t : Nat) (h : g.pc t = PC.entered) :
    Step cv g
      { g with
        depth := upd g.depth t (_increment_init_depth (g.depth t))
        pc := upd g.pc t PC.running }
  /-- Thread `t` runs `value = self.func()`; it succeeds and returns `cv`. -/
  | compute (g : GState) (t : Nat) (h : g.pc t = PC.running) :
    Step cv g
      { g with
        computeCount := g.computeCount + 1
        pc := upd g.pc t PC.publishing }
  /-- Thread `t` runs `setattr(cls, name, value)`. -/
  | publish (g : GState) (t : Nat) (h : g.pc t = PC.publishing) :
    Step cv g
      { g with
        storage := Stored.pv cv
        pc := upd g.pc t PC.reading }
  /-- Thread `t` evaluates `getattr(cls, name)` for the `return`. -/
  | readBack (g : GState) (t : Nat) (h : g.pc t = PC.reading) :
    Step cv g
      { g with
        pc := upd g.pc t (PC.finishing (storageVal g.storage g.slot.forward_value)) }
  /-- Thread `t` runs the `finally` block and returns `r`. -/
  | finish (g : GState) (t : Nat) (r : PyVal) (h : g.pc t = PC.finishing r) :
    Step cv g (applyCleanup g t r)
  /-- Thread `t` returns from `event.wait()` on the set event `e` and goes
  back to the loop head. -/
  | wake (g : GState) (t : Nat) (e : Nat) (h : g.pc t = PC.waiting e)
      (hs : g.eventsSet e = true) :
    Step cv g { g with pc := upd g.pc t PC.start }

/-- States reachable from the initial state by interleaved steps. -/
def Reachable (cv fv : PyVal) (nm : String) (g : GState) : Prop :=
  Relation.ReflTransGen (Step cv) (initG fv nm) g

/-- Inductive invariant of the concurrent system in which every
`self.func()` invocation succeeds with value `cv`. -/
structure SysInv (cv : PyVal) (g : GState) : Prop where
  owner : ∀ t, (g.pc t).inRegion = true →
    g.slot.initializing = true ∧ g.slot.initializing_thread_id = some t
  init_ex : g.slot.initializing = true → ∃ t, (g.pc t).inRegion = true
  depth_eq : ∀ t, _get_init_depth (g.depth t) = (if (g.pc t).deep = true then 1 else 0)
  storage_cases : g.storage = Stored.slot ∨ g.storage = Stored.pv cv
  count_le : g.computeCount ≤ 1
  count_storage : g.storage = Stored.pv cv → g.computeCount = 1
  pre_compute : ∀ t, (g.pc t = PC.entered ∨ g.pc t = PC.running) →
    g.storage = Stored.slot ∧ g.computeCount = 0
  at_publish : ∀ t, g.pc t = PC.publishing →
    g.storage = Stored.slot ∧ g.computeCount = 1
  at_reading : ∀ t, g.pc t = PC.reading →
    g.storage = Stored.pv cv ∧ g.computeCount = 1
  at_finishing : ∀ t r, g.pc t = PC.finishing r →
    r = cv ∧ g.storage = Stored.pv cv ∧ g.computeCount = 1
  quiescent : (∀ t, (g.pc t).inRegion = false) → g.storage = Stored.slot →
    g.computeCount = 0
  done_res : ∀ t r, g.pc t = PC.done r → r = cv ∧ g.computeCount = 1


/-! ## Depth-tracker operation model (for depth-counter hygiene)

`runOps` replays a sequence of `_increment_init_depth` /
`_decrement_init_depth` calls on one thread's depth cell.  `Balanced`
describes the well-nested sequences produced by actual executions: every
`__get__` that claims initialization runs `_increment_init_depth`, then its
computation (which may itself perform nested claims), then, in `finally`
(whether the computation succeeded or raised), `_decrement_init_depth`. -/

/-- One operation on a thread's depth cell. -/
inductive DepthOp where
  | enter
  | leave
deriving DecidableEq, Repr

/-- Replay a sequence of depth operations on a depth cell. -/
def runOps : List DepthOp → Option Int → Option Int
  | [], cell => cell
  | DepthOp.enter :: rest, cell => runOps rest (_increment_init_depth cell)
  | DepthOp.leave :: rest, cell => runOps rest (_decrement_init_depth cell)

/-- Well-nested operation sequences: empty, or an `enter`/`leave` pair
enclosing a well-nested body followed by a well-nested continuation.  Every
sequence of depth operations performed by (possibly nested, possibly
failing) `__get__` calls on one thread is of this shape, because the
`finally` block pairs each increment with exactly one decrement. -/
inductive BalancedOps : List DepthOp → Prop where
  | nil : BalancedOps []
  | node {w w' : List DepthOp} : BalancedOps w → BalancedOps w' →
      BalancedOps (DepthOp.enter :: w ++ DepthOp.leave :: w')

/-! ## A concrete two-thread trace (used to witness the concurrency
theorems on satisfiable hypotheses)

Thread 0 claims initialization and completes it; thread 1 arrives while
thread 0 is initializing, waits, is woken by the completion signal, and
re-reads the resolved value. -/

def cOneG0 : GState := initG PyVal.none "value"

def cOneG1 : GState := applyLock cOneG0 0

def cOneG2 : GState := applyLock cOneG1 1

def cOneG3 : GState :=
  { cOneG2 with
    depth := upd cOneG2.depth 0 (_increment_init_depth (cOneG2.depth 0))
    pc := upd cOneG2.pc 0 PC.running }

def cOneG4 : GState :=
  { cOneG3 with
    computeCount := cOneG3.computeCount + 1
    pc := upd cOneG3.pc 0 PC.publishing }

def cOneG5 : GState :=
  { cOneG4 with
    storage := Stored.pv (PyVal.obj 7)
    pc := upd cOneG4.pc 0 PC.reading }

def cOneG6 : GState :=
  { cOneG5 with
    pc := upd cOneG5.pc 0 (PC.finishing (storageVal cOneG5.storage cOneG5.slot.forward_value)) }

def cOneG7 : GState := applyCleanup cOneG6 0 (PyVal.obj 7)

def cOneG8 : GState := { cOneG7 with pc := upd cOneG7.pc 1 PC.start }

def cOneFinal : GState := applyLock cOneG8 1

/-! ## Concrete inputs used by the witnesses -/

/-- A bound slot currently being initialized by thread 5, with a
non-`None` forward value. -/
def cTwoSlot : LazyClassAttribute :=
  { name := some "value"
    forward_value := PyVal.obj 1
    initialized_event := Option.none
    initializing := true
    initializing_thread_id := some 5 }

/-- A bound slot currently being initialized by thread 5, with the default
(`None`) forward value. -/
def cTenSlot : LazyClassAttribute :=
  { name := some "value"
    forward_value := PyVal.none
    initialized_event := Option.none
    initializing := true
    initializing_thread_id := some 5 }

/-- A fresh idle bound slot. -/
def cIdleSlot : LazyClassAttribute :=
  LazyClassAttribute.init (some "value") PyVal.none

/-- A fresh context: descriptor still installed, depth cell unset, no
events. -/
def cCtx : Ctx :=
  { storage := Stored.slot
    depthCell := Option.none
    eventsSet := fun _ => false
    nextEvent := 0 }

/-- The result of a failing `__get__` call on the fresh idle slot. -/
def cFourFail : GetResult Nat × LazyClassAttribute × Ctx :=
  getFull (fun _ => 0) cIdleSlot (Except.error 0) Option.none (some 0) 1 cCtx

/-- A retrying `__get__` call, from another thread, after the failure. -/
def cFourRetry : GetResult Nat × LazyClassAttribute × Ctx :=
  getFull (fun _ => 0) cFourFail.2.1 (Except.ok (PyVal.obj 3)) Option.none
    (some 0) 2 cFourFail.2.2

/-- A succeeding `__get__` call on the fresh idle slot. -/
def cFourOk : GetResult Nat × LazyClassAttribute × Ctx :=
  getFull (fun _ => 0) cIdleSlot (Except.ok (PyVal.obj 4)) Option.none
    (some 0) 1 cCtx

/-! ## Characterization of the lock section -/

theorem upd_self {α : Type} (f : Nat → α) (t : Nat) (a : α) : upd f t a t = a := by
  simp [upd]

theorem upd_ne {α : Type} (f : Nat → α) {t u : Nat} (a : α) (h : u ≠ t) :
    upd f t a u = f u := by
  simp [upd, h]

/-- Storage already resolved to a non-`None` value: the lock block returns
it at once and changes nothing. -/
theorem lockSection_resolved (s : LazyClassAttribute) (v : PyVal)
    (hv : v ≠ PyVal.none) (tid : Nat) (d : Int) (fresh : Nat) :
    lockSection s (Stored.pv v) tid d fresh = (LockOutcome.ret v, s) := by
  simp [lockSection, hv]

/-- Unresolved storage (the descriptor itself, or `None`): the lock block
proceeds to the initialization logic. -/
theorem lockSection_unresolved (s : LazyClassAttribute) (storage : Stored)
    (hU : storage = Stored.slot ∨ storage = Stored.pv PyVal.none)
    (tid : Nat) (d : Int) (fresh : Nat) :
    lockSection s storage tid d fresh =
      lockSection.lockSectionUnresolved s tid d fresh := by
  rcases hU with h | h <;> subst h <;> simp [lockSection]

/-- Same-thread re-entrant access: returns the forward value at once. -/
theorem lsu_same_thread (s : LazyClassAttribute) (tid : Nat) (d : Int)
    (fresh : Nat) (h1 : s.initializing = true)
    (h2 : s.initializing_thread_id = some tid) :
    lockSection.lockSectionUnresolved s tid d fresh =
      (LockOutcome.ret s.forward_value, s) := by
  simp [lockSection.lockSectionUnresolved, h1, h2]

/-- Cross-thread access with a forward value and positive depth: returns
the forward value. -/
theorem lsu_forward (s : LazyClassAttribute) (tid : Nat) (d : Int)
    (fresh : Nat) (h1 : s.initializing = true)
    (h3 : s.forward_value ≠ PyVal.none) (h4 : d > 0) :
    lockSection.lockSectionUnresolved s tid d fresh =
      (LockOutcome.ret s.forward_value, s) := by
  simp [lockSection.lockSectionUnresolved, h1, h3, h4]

/-- Cross-thread access that must wait, existing event. -/
theorem lsu_wait_some (s : LazyClassAttribute) (tid : Nat) (d : Int)
    (fresh : Nat) (e : Nat) (h1 : s.initializing = true)
    (h2 : s.initializing_thread_id ≠ some tid)
    (h4 : ¬(s.forward_value ≠ PyVal.none ∧ d > 0))
    (he : s.initialized_event = some e) :
    lockSection.lockSectionUnresolved s tid d fresh = (LockOutcome.wait e, s) := by
  simp [lockSection.lockSectionUnresolved, h1, h2, h4, he]

/-- Cross-thread access that must wait, allocating a fresh event. -/
theorem lsu_wait_none (s : LazyClassAttribute) (tid : Nat) (d : Int)
    (fresh : Nat) (h1 : s.initializing = true)
    (h2 : s.initializing_thread_id ≠ some tid)
    (h4 : ¬(s.forward_value ≠ PyVal.none ∧ d > 0))
    (he : s.initialized_event = Option.none) :
    lockSection.lockSectionUnresolved s tid d fresh =
      (LockOutcome.wait fresh, { s with initialized_event := some fresh }) := by
  simp [lockSection.lockSectionUnresolved, h1, h2, h4, he]

/-- Idle slot: the caller claims initialization. -/
theorem lsu_claim (s : LazyClassAttribute) (tid : Nat) (d : Int)
    (fresh : Nat) (h1 : s.initializing = false) :
    lockSection.lockSectionUnresolved s tid d fresh =
      (LockOutcome.claim fresh,
        { s with
          initializing := true
          initializing_thread_id := some tid
          initialized_event := some fresh }) := by
  simp [lockSection.lockSectionUnresolved, h1]

/-! ## The inductive invariant of the concurrent system -/

/-- Two threads in the initialization region are the same thread. -/
theorem SysInv.region_uniq {cv : PyVal} {g : GState} (hi : SysInv cv g) {t u : Nat}
    (ht : (g.pc t).inRegion = true) (hu : (g.pc u).inRegion = true) : t = u := by
  have h1 := (hi.owner t ht).2
  have h2 := (hi.owner u hu).2
  have : some t = some u := h1.symm.trans h2
  exact Option.some.inj this

theorem inv_init (cv fv : PyVal) (nm : String) : SysInv cv (initG fv nm) := by
  constructor <;>
    simp [initG, LazyClassAttribute.init, PC.inRegion, PC.deep, _get_init_depth]

/-- Preservation of the invariant under any step that only moves one
thread between non-region, non-deep pcs, leaves storage, count and depth
untouched, and changes the slot at most in its `initialized_event` field.
Covers the `wake` step and the `ret`/`wait` outcomes of the lock step. -/
theorem inv_boring {cv : PyVal} {g : GState} (hi : SysInv cv g) (t : Nat) (p : PC)
    (s' : LazyClassAttribute) (ev : Nat → Bool) (ne : Nat)
    (hold : (g.pc t).inRegion = false) (holdd : (g.pc t).deep = false)
    (hp : p.inRegion = false) (hpd : p.deep = false)
    (hdone : ∀ r, p = PC.done r → r = cv ∧ g.computeCount = 1)
    (hs1 : s'.initializing = g.slot.initializing)
    (hs2 : s'.initializing_thread_id = g.slot.initializing_thread_id) :
    SysInv cv { g with slot := s', pc := upd g.pc t p, eventsSet := ev, nextEvent := ne } := by
  constructor
  · -- owner
    intro u hu
    dsimp only at hu ⊢
    by_cases hut : u = t
    · subst hut
      rw [upd_self, hp] at hu
      cases hu
    · rw [upd_ne _ _ hut] at hu
      have h := hi.owner u hu
      exact ⟨hs1.trans h.1, hs2.trans h.2⟩
  · -- init_ex
    intro hin
    dsimp only at hin ⊢
    obtain ⟨u, hu⟩ := hi.init_ex (hs1 ▸ hin)
    have hut : u ≠ t := by
      intro he
      subst he
      rw [hold] at hu
      cases hu
    exact ⟨u, by rw [upd_ne _ _ hut]; exact hu⟩
  · -- depth_eq
    intro u
    dsimp only
    by_cases hut : u = t
    · subst hut
      rw [upd_self, hpd]
      have h := hi.depth_eq u
      rw [holdd] at h
      simpa using h
    · rw [upd_ne _ _ hut]
      exact hi.depth_eq u
  · -- storage_cases
    exact hi.storage_cases
  · -- count_le
    exact hi.count_le
  · -- count_storage
    exact hi.count_storage
  · -- pre_compute
    intro u hu
    dsimp only at hu ⊢
    by_cases hut : u = t
    · subst hut
      rw [upd_self] at hu
      rcases hu with hu | hu <;> (subst hu; cases hp)
    · rw [upd_ne _ _ hut] at hu
      exact hi.pre_compute u hu
  · -- at_publish
    intro u hu
    dsimp only at hu ⊢
    by_cases hut : u = t
    · subst hut
      rw [upd_self] at hu
      subst hu
      cases hp
    · rw [upd_ne _ _ hut] at hu
      exact hi.at_publish u hu
  · -- at_reading
    intro u hu
    dsimp only at hu ⊢
    by_cases hut : u = t
    · subst hut
      rw [upd_self] at hu
      subst hu
      cases hp
    · rw [upd_ne _ _ hut] at hu
      exact hi.at_reading u hu
  · -- at_finishing
    intro u r hu
    dsimp only at hu ⊢
    by_cases hut : u = t
    · subst hut
      rw [upd_self] at hu
      subst hu
      cases hp
    · rw [upd_ne _ _ hut] at hu
      exact hi.at_finishing u r hu
  · -- quiescent
    intro hq hst
    dsimp only at hq hst ⊢
    refine hi.quiescent ?_ hst
    intro u
    by_cases hut : u = t
    · subst hut
      exact hold
    · have := hq u
      rwa [upd_ne _ _ hut] at this
  · -- done_res
    intro u r hu
    dsimp only at hu ⊢
    by_cases hut : u = t
    · subst hut
      rw [upd_self] at hu
      subst hu
      exact hdone r rfl
    · rw [upd_ne _ _ hut] at hu
      exact hi.done_res u r hu

theorem inv_incr {cv : PyVal} {g : GState} (hi : SysInv cv g) (t : Nat)
    (h : g.pc t = PC.entered) :
    SysInv cv
      { g with
        depth := upd g.depth t (_increment_init_depth (g.depth t))
        pc := upd g.pc t PC.running } := by
  have ht_region : (g.pc t).inRegion = true := by rw [h]; rfl
  constructor
  · intro u hu
    dsimp only at hu ⊢
    by_cases hut : u = t
    · subst hut
      exact hi.owner u ht_region
    · rw [upd_ne _ _ hut] at hu
      exact hi.owner u hu
  · intro hin
    dsimp only at hin ⊢
    exact ⟨t, by rw [upd_self]; rfl⟩
  · intro u
    dsimp only
    by_cases hut : u = t
    · subst hut
      rw [upd_self, upd_self]
      have hd0 := hi.depth_eq u
      rw [h] at hd0
      simp only [PC.deep] at hd0 ⊢
      simp only [_get_init_depth, _increment_init_depth, Option.getD_some] at hd0 ⊢
      simp at hd0
      simp [_get_init_depth, hd0]
    · rw [upd_ne _ _ hut, upd_ne _ _ hut]
      exact hi.depth_eq u
  · exact hi.storage_cases
  · exact hi.count_le
  · exact hi.count_storage
  · intro u hu
    dsimp only at hu ⊢
    by_cases hut : u = t
    · subst hut
      exact hi.pre_compute u (Or.inl h)
    · rw [upd_ne _ _ hut] at hu
      exact hi.pre_compute u hu
  · intro u hu
    dsimp only at hu ⊢
    by_cases hut : u = t
    · subst hut
      rw [upd_self] at hu
      cases hu
    · rw [upd_ne _ _ hut] at hu
      exact hi.at_publish u hu
  · intro u hu
    dsimp only at hu ⊢
    by_cases hut : u = t
    · subst hut
      rw [upd_self] at hu
      cases hu
    · rw [upd_ne _ _ hut] at hu
      exact hi.at_reading u hu
  · intro u r hu
    dsimp only at hu ⊢
    by_cases hut : u = t
    · subst hut
      rw [upd_self] at hu
      cases hu
    · rw [upd_ne _ _ hut] at hu
      exact hi.at_finishing u r hu
  · intro hq _
    dsimp only at hq
    have := hq t
    rw [upd_self] at this
    cases this
  · intro u r hu
    dsimp only at hu ⊢
    by_cases hut : u = t
    · subst hut
      rw [upd_self] at hu
      cases hu
    · rw [upd_ne _ _ hut] at hu
      exact hi.done_res u r hu

theorem inv_compute {cv : PyVal} {g : GState} (hi : SysInv cv g) (t : Nat)
    (h : g.pc t = PC.running) :
    SysInv cv
      { g with
        computeCount := g.computeCount + 1
        pc := upd g.pc t PC.publishing } := by
  have ht_region : (g.pc t).inRegion = true := by rw [h]; rfl
  have hpre := hi.pre_compute t (Or.inr h)
  constructor
  · intro u hu
    dsimp only at hu ⊢
    by_cases hut : u = t
    · subst hut
      exact hi.owner u ht_region
    · rw [upd_ne _ _ hut] at hu
      exact hi.owner u hu
  · intro hin
    dsimp only at hin ⊢
    exact ⟨t, by rw [upd_self]; rfl⟩
  · intro u
    dsimp only
    by_cases hut : u = t
    · subst hut
      rw [upd_self]
      have hd := hi.depth_eq u
      rw [h] at hd
      simpa [PC.deep] using hd
    · rw [upd_ne _ _ hut]
      exact hi.depth_eq u
  · exact hi.storage_cases
  · dsimp only
    have := hpre.2
    omega
  · intro hst
    dsimp only at hst
    rw [hpre.1] at hst
    cases hst
  · intro u hu
    dsimp only at hu ⊢
    by_cases hut : u = t
    · subst hut
      rw [upd_self] at hu
      rcases hu with hu | hu <;> cases hu
    · rw [upd_ne _ _ hut] at hu
      have hu_r : (g.pc u).inRegion = true := by
        rcases hu with hu | hu <;> rw [hu] <;> rfl
      exact absurd (hi.region_uniq hu_r ht_region) hut
  · intro u hu
    dsimp only at hu ⊢
    by_cases hut : u = t
    · subst hut
      exact ⟨hpre.1, by omega⟩
    · rw [upd_ne _ _ hut] at hu
      have hu_r : (g.pc u).inRegion = true := by rw [hu]; rfl
      exact absurd (hi.region_uniq hu_r ht_region) hut
  · intro u hu
    dsimp only at hu ⊢
    by_cases hut : u = t
    · subst hut
      rw [upd_self] at hu
      cases hu
    · rw [upd_ne _ _ hut] at hu
      have hu_r : (g.pc u).inRegion = true := by rw [hu]; rfl
      exact absurd (hi.region_uniq hu_r ht_region) hut
  · intro u r hu
    dsimp only at hu ⊢
    by_cases hut : u = t
    · subst hut
      rw [upd_self] at hu
      cases hu
    · rw [upd_ne _ _ hut] at hu
      have hu_r : (g.pc u).inRegion = true := by rw [hu]; rfl
      exact absurd (hi.region_uniq hu_r ht_region) hut
  · intro hq _
    dsimp only at hq
    have := hq t
    rw [upd_self] at this
    cases this
  · intro u r hu
    dsimp only at hu ⊢
    by_cases hut : u = t
    · subst hut
      rw [upd_self] at hu
      cases hu
    · rw [upd_ne _ _ hut] at hu
      have := (hi.done_res u r hu).2
      omega

theorem inv_publish {cv : PyVal} {g : GState} (hi : SysInv cv g) (t : Nat)
    (h : g.pc t = PC.publishing) :
    SysInv cv
      { g with
        storage := Stored.pv cv
        pc := upd g.pc t PC.reading } := by
  have ht_region : (g.pc t).inRegion = true := by rw [h]; rfl
  have hap := hi.at_publish t h
  constructor
  · intro u hu
    dsimp only at hu ⊢
    by_cases hut : u = t
    · subst hut
      exact hi.owner u ht_region
    · rw [upd_ne _ _ hut] at hu
      exact hi.owner u hu
  · intro hin
    dsimp only at hin ⊢
    exact ⟨t, by rw [upd_self]; rfl⟩
  · intro u
    dsimp only
    by_cases hut : u = t
    · subst hut
      rw [upd_self]
      have hd := hi.depth_eq u
      rw [h] at hd
      simpa [PC.deep] using hd
    · rw [upd_ne _ _ hut]
      exact hi.depth_eq u
  · exact Or.inr rfl
  · exact hi.count_le
  · intro _
    exact hap.2
  · intro u hu
    dsimp only at hu ⊢
    by_cases hut : u = t
    · subst hut
      rw [upd_self] at hu
      rcases hu with hu | hu <;> cases hu
    · rw [upd_ne _ _ hut] at hu
      have hu_r : (g.pc u).inRegion = true := by
        rcases hu with hu | hu <;> rw [hu] <;> rfl
      exact absurd (hi.region_uniq hu_r ht_region) hut
  · intro u hu
    dsimp only at hu ⊢
    by_cases hut : u = t
    · subst hut
      rw [upd_self] at hu
      cases hu
    · rw [upd_ne _ _ hut] at hu
      have hu_r : (g.pc u).inRegion = true := by rw [hu]; rfl
      exact absurd (hi.region_uniq hu_r ht_region) hut
  · intro u hu
    dsimp only at hu ⊢
    by_cases hut : u = t
    · subst hut
      exact ⟨rfl, hap.2⟩
    · rw [upd_ne _ _ hut] at hu
      have hu_r : (g.pc u).inRegion = true := by rw [hu]; rfl
      exact absurd (hi.region_uniq hu_r ht_region) hut
  · intro u r hu
    dsimp only at hu ⊢
    by_cases hut : u = t
    · subst hut
      rw [upd_self] at hu
      cases hu
    · rw [upd_ne _ _ hut] at hu
      have hu_r : (g.pc u).inRegion = true := by rw [hu]; rfl
      exact absurd (hi.region_uniq hu_r ht_region) hut
  · intro hq _
    dsimp only at hq
    have := hq t
    rw [upd_self] at this
    cases this
  · intro u r hu
    dsimp only at hu ⊢
    by_cases hut : u = t
    · subst hut
      rw [upd_self] at hu
      cases hu
    · rw [upd_ne _ _ hut] at hu
      exact hi.done_res u r hu

theorem inv_readBack {cv : PyVal} {g : GState} (hi : SysInv cv g) (t : Nat)
    (h : g.pc t = PC.reading) :
    SysInv cv
      { g with
        pc := upd g.pc t (PC.finishing (storageVal g.storage g.slot.forward_value)) } := by
  have ht_region : (g.pc t).inRegion = true := by rw [h]; rfl
  have har := hi.at_reading t h
  have hrv : storageVal g.storage g.slot.forward_value = cv := by
    rw [har.1]
    rfl
  constructor
  · intro u hu
    dsimp only at hu ⊢
    by_cases hut : u = t
    · subst hut
      exact hi.owner u ht_region
    · rw [upd_ne _ _ hut] at hu
      exact hi.owner u hu
  · intro hin
    dsimp only at hin ⊢
    exact ⟨t, by rw [upd_self]; rfl⟩
  · intro u
    dsimp only
    by_cases hut : u = t
    · subst hut
      rw [upd_self]
      have hd := hi.depth_eq u
      rw [h] at hd
      simpa [PC.deep] using hd
    · rw [upd_ne _ _ hut]
      exact hi.depth_eq u
  · exact hi.storage_cases
  · exact hi.count_le
  · exact hi.count_storage
  · intro u hu
    dsimp only at hu ⊢
    by_cases hut : u = t
    · subst hut
      rw [upd_self] at hu
      rcases hu with hu | hu <;> cases hu
    · rw [upd_ne _ _ hut] at hu
      have hu_r : (g.pc u).inRegion = true := by
        rcases hu with hu | hu <;> rw [hu] <;> rfl
      exact absurd (hi.region_uniq hu_r ht_region) hut
  · intro u hu
    dsimp only at hu ⊢
    by_cases hut : u = t
    · subst hut
      rw [upd_self] at hu
      cases hu
    · rw [upd_ne _ _ hut] at hu
      have hu_r : (g.pc u).inRegion = true := by rw [hu]; rfl
      exact absurd (hi.region_uniq hu_r ht_region) hut
  · intro u hu
    dsimp only at hu ⊢
    by_cases hut : u = t
    · subst hut
      rw [upd_self] at hu
      cases hu
    · rw [upd_ne _ _ hut] at hu
      have hu_r : (g.pc u).inRegion = true := by rw [hu]; rfl
      exact absurd (hi.region_uniq hu_r ht_region) hut
  · intro u r hu
    dsimp only at hu ⊢
    by_cases hut : u = t
    · subst hut
      rw [upd_self] at hu
      cases hu
      exact ⟨hrv, har.1, har.2⟩
    · rw [upd_ne _ _ hut] at hu
      have hu_r : (g.pc u).inRegion = true := by rw [hu]; rfl
      exact absurd (hi.region_uniq hu_r ht_region) hut
  · intro hq _
    dsimp only at hq
    have := hq t
    rw [upd_self] at this
    cases this
  · intro u r hu
    dsimp only at hu ⊢
    by_cases hut : u = t
    · subst hut
      rw [upd_self] at hu
      cases hu
    · rw [upd_ne _ _ hut] at hu
      exact hi.done_res u r hu

theorem inv_finish {cv : PyVal} {g : GState} (hi : SysInv cv g) (t : Nat)
    (r : PyVal) (h : g.pc t = PC.finishing r) :
    SysInv cv (applyCleanup g t r) := by
  have ht_region : (g.pc t).inRegion = true := by rw [h]; rfl
  have haf := hi.at_finishing t r h
  constructor
  · intro u hu
    simp only [applyCleanup] at hu ⊢
    by_cases hut : u = t
    · subst hut
      rw [upd_self] at hu
      cases hu
    · rw [upd_ne _ _ hut] at hu
      have hu_r : (g.pc u).inRegion = true := hu
      exact absurd (hi.region_uniq hu_r ht_region) hut
  · intro hin
    simp only [applyCleanup] at hin
    cases hin
  · intro u
    simp only [applyCleanup]
    by_cases hut : u = t
    · subst hut
      simp only [upd_self]
      have hd := hi.depth_eq u
      rw [h] at hd
      simp only [PC.deep, if_pos rfl] at hd
      simp [_decrement_init_depth, _get_init_depth, hd, PC.deep]
      simp [_get_init_depth] at hd
      simp [hd]
    · simp only [upd_ne _ _ hut]
      exact hi.depth_eq u
  · exact Or.inr haf.2.1
  · exact hi.count_le
  · intro _
    exact haf.2.2
  · intro u hu
    simp only [applyCleanup] at hu ⊢
    by_cases hut : u = t
    · subst hut
      rw [upd_self] at hu
      rcases hu with hu | hu <;> cases hu
    · rw [upd_ne _ _ hut] at hu
      have hu_r : (g.pc u).inRegion = true := by
        rcases hu with hu | hu <;> rw [hu] <;> rfl
      exact absurd (hi.region_uniq hu_r ht_region) hut
  · intro u hu
    simp only [applyCleanup] at hu ⊢
    by_cases hut : u = t
    · subst hut
      rw [upd_self] at hu
      cases hu
    · rw [upd_ne _ _ hut] at hu
      have hu_r : (g.pc u).inRegion = true := by rw [hu]; rfl
      exact absurd (hi.region_uniq hu_r ht_region) hut
  · intro u hu
    simp only [applyCleanup] at hu ⊢
    by_cases hut : u = t
    · subst hut
      rw [upd_self] at hu
      cases hu
    · rw [upd_ne _ _ hut] at hu
      have hu_r : (g.pc u).inRegion = true := by rw [hu]; rfl
      exact absurd (hi.region_uniq hu_r ht_region) hut
  · intro u r' hu
    simp only [applyCleanup] at hu ⊢
    by_cases hut : u = t
    · subst hut
      rw [upd_self] at hu
      cases hu
    · rw [upd_ne _ _ hut] at hu
      have hu_r : (g.pc u).inRegion = true := by rw [hu]; rfl
      exact absurd (hi.region_uniq hu_r ht_region) hut
  · intro _ hst
    simp only [applyCleanup] at hst
    rw [haf.2.1] at hst
    cases hst
  · intro u r' hu
    simp only [applyCleanup] at hu ⊢
    by_cases hut : u = t
    · subst hut
      rw [upd_self] at hu
      cases hu
      exact ⟨haf.1, haf.2.2⟩
    · rw [upd_ne _ _ hut] at hu
      exact hi.done_res u r' hu

theorem inv_lock {cv : PyVal} {g : GState} (hcv : cv ≠ PyVal.none)
    (hi : SysInv cv g) (t : Nat) (h : g.pc t = PC.start) :
    SysInv cv (applyLock g t) := by
  have hold : (g.pc t).inRegion = false := by rw [h]; rfl
  have holdd : (g.pc t).deep = false := by rw [h]; rfl
  have hD : _get_init_depth (g.depth t) = 0 := by
    have := hi.depth_eq t
    rw [h] at this
    simpa [PC.deep] using this
  rcases hi.storage_cases with hsc | hsc
  · -- owner storage still holds the descriptor: the initialization logic runs
    have hU : g.storage = Stored.slot ∨ g.storage = Stored.pv PyVal.none := Or.inl hsc
    cases hin : g.slot.initializing with
    | true =>
      -- some region thread owns the slot, and it is not `t`
      obtain ⟨u, hu⟩ := hi.init_ex hin
      have hthread := (hi.owner u hu).2
      have hne : g.slot.initializing_thread_id ≠ some t := by
        rw [hthread]
        intro he
        have heq : u = t := Option.some.inj he
        subst heq
        rw [hold] at hu
        cases hu
      have h4 : ¬(g.slot.forward_value ≠ PyVal.none ∧ _get_init_depth (g.depth t) > 0) := by
        rw [hD]
        simp
      cases he : g.slot.initialized_event with
      | some e =>
        have hls : lockSection g.slot g.storage t (_get_init_depth (g.depth t)) g.nextEvent
            = (LockOutcome.wait e, g.slot) := by
          rw [lockSection_unresolved _ _ hU, lsu_wait_some _ _ _ _ e hin hne h4 he]
        have hshape : applyLock g t =
            { g with
              slot := g.slot
              pc := upd g.pc t (PC.waiting e)
              eventsSet := g.eventsSet
              nextEvent := g.nextEvent + 1 } := by
          simp [applyLock, hls, pcOfOutcome]
        rw [hshape]
        exact inv_boring hi t _ _ _ _ hold holdd rfl rfl
          (by intro r hr; cases hr) rfl rfl
      | none =>
        have hls : lockSection g.slot g.storage t (_get_init_depth (g.depth t)) g.nextEvent
            = (LockOutcome.wait g.nextEvent,
               { g.slot with initialized_event := some g.nextEvent }) := by
          rw [lockSection_unresolved _ _ hU, lsu_wait_none _ _ _ _ hin hne h4 he]
        have hshape : applyLock g t =
            { g with
              slot := { g.slot with initialized_event := some g.nextEvent }
              pc := upd g.pc t (PC.waiting g.nextEvent)
              eventsSet := g.eventsSet
              nextEvent := g.nextEvent + 1 } := by
          simp [applyLock, hls, pcOfOutcome]
        rw [hshape]
        exact inv_boring hi t _ _ _ _ hold holdd rfl rfl
          (by intro r hr; cases hr) rfl rfl
    | false =>
      -- the slot is idle: thread `t` claims initialization
      have hls : lockSection g.slot g.storage t (_get_init_depth (g.depth t)) g.nextEvent
          = (LockOutcome.claim g.nextEvent,
             { g.slot with
               initializing := true
               initializing_thread_id := some t
               initialized_event := some g.nextEvent }) := by
        rw [lockSection_unresolved _ _ hU, lsu_claim _ _ _ _ hin]
      have hq0 : ∀ u, (g.pc u).inRegion = false := by
        intro u
        cases hru : (g.pc u).inRegion
        · rfl
        · have hcontra := (hi.owner u hru).1
          rw [hin] at hcontra
          cases hcontra
      have hcount : g.computeCount = 0 := hi.quiescent hq0 hsc
      have hshape : applyLock g t =
          { g with
            slot :=
              { g.slot with
                initializing := true
                initializing_thread_id := some t
                initialized_event := some g.nextEvent }
            pc := upd g.pc t PC.entered
            eventsSet := g.eventsSet
            nextEvent := g.nextEvent + 1 } := by
        simp [applyLock, hls, pcOfOutcome]
      rw [hshape]
      constructor
      · intro u hu
        dsimp only at hu ⊢
        by_cases hut : u = t
        · subst hut
          exact ⟨rfl, rfl⟩
        · rw [upd_ne _ _ hut] at hu
          have := hq0 u
          rw [this] at hu
          cases hu
      · intro _
        dsimp only
        exact ⟨t, by rw [upd_self]; rfl⟩
      · intro u
        dsimp only
        by_cases hut : u = t
        · subst hut
          rw [upd_self]
          simp only [PC.deep]
          simpa using hD
        · rw [upd_ne _ _ hut]
          exact hi.depth_eq u
      · exact Or.inl hsc
      · exact hi.count_le
      · intro hst
        dsimp only at hst
        rw [hsc] at hst
        cases hst
      · intro u hu
        dsimp only at hu ⊢
        by_cases hut : u = t
        · exact ⟨hsc, hcount⟩
        · rw [upd_ne _ _ hut] at hu
          have hu_r : (g.pc u).inRegion = true := by
            rcases hu with hu | hu <;> rw [hu] <;> rfl
          rw [hq0 u] at hu_r
          cases hu_r
      · intro u hu
        dsimp only at hu ⊢
        by_cases hut : u = t
        · subst hut
          rw [upd_self] at hu
          cases hu
        · rw [upd_ne _ _ hut] at hu
          have hu_r : (g.pc u).inRegion = true := by rw [hu]; rfl
          rw [hq0 u] at hu_r
          cases hu_r
      · intro u hu
        dsimp only at hu ⊢
        by_cases hut : u = t
        · subst hut
          rw [upd_self] at hu
          cases hu
        · rw [upd_ne _ _ hut] at hu
          have hu_r : (g.pc u).inRegion = true := by rw [hu]; rfl
          rw [hq0 u] at hu_r
          cases hu_r
      · intro u r hu
        dsimp only at hu ⊢
        by_cases hut : u = t
        · subst hut
          rw [upd_self] at hu
          cases hu
        · rw [upd_ne _ _ hut] at hu
          have hu_r : (g.pc u).inRegion = true := by rw [hu]; rfl
          rw [hq0 u] at hu_r
          cases hu_r
      · intro hq _
        dsimp only at hq
        have := hq t
        rw [upd_self] at this
        cases this
      · intro u r hu
        dsimp only at hu ⊢
        by_cases hut : u = t
        · subst hut
          rw [upd_self] at hu
          cases hu
        · rw [upd_ne _ _ hut] at hu
          have h1 := (hi.done_res u r hu).2
          rw [hcount] at h1
          exact absurd h1 (by decide)
  · -- owner storage already resolved to `cv`: immediate return
    have hls : lockSection g.slot g.storage t (_get_init_depth (g.depth t)) g.nextEvent
        = (LockOutcome.ret cv, g.slot) := by
      rw [hsc, lockSection_resolved _ _ hcv]
    have hshape : applyLock g t =
        { g with
          slot := g.slot
          pc := upd g.pc t (PC.done cv)
          eventsSet := g.eventsSet
          nextEvent := g.nextEvent + 1 } := by
      simp [applyLock, hls, pcOfOutcome]
    rw [hshape]
    refine inv_boring hi t _ _ _ _ hold holdd rfl rfl ?_ rfl rfl
    intro r hr
    injection hr with h2
    subst h2
    exact ⟨rfl, hi.count_storage hsc⟩

/-- The invariant is preserved by every step. -/
theorem inv_step {cv : PyVal} {g g' : GState} (hcv : cv ≠ PyVal.none)
    (hi : SysInv cv g) (hs : Step cv g g') : SysInv cv g' := by
  cases hs with
  | lock t h => exact inv_lock hcv hi t h
  | incr t h => exact inv_incr hi t h
  | compute t h => exact inv_compute hi t h
  | publish t h => exact inv_publish hi t h
  | readBack t h => exact inv_readBack hi t h
  | finish t r h => exact inv_finish hi t r h
  | wake t e h hflag =>
    exact inv_boring hi t _ _ _ _ (by rw [h]; rfl) (by rw [h]; rfl) rfl rfl
      (by intro r hr; cases hr) rfl rfl

/-- Every reachable state of the concurrent system satisfies the
invariant. -/
theorem inv_reachable {cv fv : PyVal} {nm : String} (hcv : cv ≠ PyVal.none)
    {g : GState} (hr : Reachable cv fv nm g) : SysInv cv g := by
  induction hr with
  | refl => exact inv_init cv fv nm
  | tail hsteps hstep ih => exact inv_step hcv ih hstep

/-- The two-thread trace is an actual execution of the system. -/
theorem cOneFinal_reachable :
    Reachable (PyVal.obj 7) PyVal.none "value" cOneFinal := by
  have h0 : Reachable (PyVal.obj 7) PyVal.none "value" cOneG0 :=
    Relation.ReflTransGen.refl
  have h1 : Reachable (PyVal.obj 7) PyVal.none "value" cOneG1 :=
    h0.tail (Step.lock cOneG0 0 (by decide))
  have h2 : Reachable (PyVal.obj 7) PyVal.none "value" cOneG2 :=
    h1.tail (Step.lock cOneG1 1 (by decide))
  have h3 : Reachable (PyVal.obj 7) PyVal.none "value" cOneG3 :=
    h2.tail (Step.incr cOneG2 0 (by decide))
  have h4 : Reachable (PyVal.obj 7) PyVal.none "value" cOneG4 :=
    h3.tail (Step.compute cOneG3 0 (by decide))
  have h5 : Reachable (PyVal.obj 7) PyVal.none "value" cOneG5 :=
    h4.tail (Step.publish cOneG4 0 (by decide))
  have h6 : Reachable (PyVal.obj 7) PyVal.none "value" cOneG6 :=
    h5.tail (Step.readBack cOneG5 0 (by decide))
  have h7 : Reachable (PyVal.obj 7) PyVal.none "value" cOneG7 :=
    h6.tail (Step.finish cOneG6 0 (PyVal.obj 7) (by decide))
  have h8 : Reachable (PyVal.obj 7) PyVal.none "value" cOneG8 :=
    h7.tail (Step.wake cOneG7 1 0 (by decide) (by decide))
  exact h8.tail (Step.lock cOneG8 1 (by decide))

/-- C1: Exactly-once memoization under contention: for any number of
threads concurrently calling `__get__` on one fresh slot whose computation
succeeds with a fresh (non-`None`) object `cv`, in every reachable state
`self.func()` has been invoked at most once, and every thread that has
returned obtained exactly the computed value `cv` — and by the time any
thread has returned, the computation has run exactly once. -/
theorem C1_exactly_once (cv fv : PyVal) (nm : String) (hcv : cv ≠ PyVal.none)
    (g : GState) (hr : Reachable cv fv nm g) :
    g.computeCount ≤ 1 ∧
      ∀ t r, g.pc t = PC.done r → r = cv ∧ g.computeCount = 1 := by
  have hi := inv_reachable hcv hr
  exact ⟨hi.count_le, hi.done_res⟩

/-- Witness for C1 at the end of the concrete two-thread trace. -/
theorem C1_exactly_once_witness :
    (PyVal.obj 7 ≠ PyVal.none) ∧
      (cOneFinal.computeCount ≤ 1 ∧
        ∀ t r, cOneFinal.pc t = PC.done r → r = PyVal.obj 7 ∧ cOneFinal.computeCount = 1) :=
  ⟨by decide,
    C1_exactly_once (PyVal.obj 7) PyVal.none "value" (by decide) cOneFinal
      cOneFinal_reachable⟩

/-- C2: Placeholder-return rule: with unresolved owner storage, one
execution of the lock block returns the forward placeholder exactly when
the slot is initializing and either the caller is the initializing thread
or a non-`None` forward value exists and the caller's depth counter is
positive; and (in the success scenario, with the placeholder distinct from
the computed value) no thread ever has the placeholder as its final
returned value. -/
theorem C2_placeholder_rule :
    (∀ (s : LazyClassAttribute) (storage : Stored) (tid : Nat) (d : Int)
        (fresh : Nat),
      (storage = Stored.slot ∨ storage = Stored.pv PyVal.none) →
      ((lockSection s storage tid d fresh).1 = LockOutcome.ret s.forward_value ↔
        (s.initializing = true ∧
          (s.initializing_thread_id = some tid ∨
            (s.forward_value ≠ PyVal.none ∧ d > 0))))) ∧
    (∀ (cv fv : PyVal) (nm : String), cv ≠ PyVal.none → fv ≠ cv →
      ∀ g, Reachable cv fv nm g → ∀ t r, g.pc t = PC.done r → r ≠ fv) := by
  constructor
  · intro s storage tid d fresh hU
    rw [lockSection_unresolved _ _ hU]
    by_cases h1 : s.initializing = true
    · by_cases h2 : s.initializing_thread_id = some tid
      · rw [lsu_same_thread _ _ _ _ h1 h2]
        simp [h1, h2]
      · by_cases h3 : s.forward_value ≠ PyVal.none ∧ d > 0
        · rw [lsu_forward _ _ _ _ h1 h3.1 h3.2]
          simp [h1, h3]
        · cases he : s.initialized_event with
          | some e =>
            rw [lsu_wait_some _ _ _ _ e h1 h2 h3 he]
            simp [h2, h3]
          | none =>
            rw [lsu_wait_none _ _ _ _ h1 h2 h3 he]
            simp [h2, h3]
    · have h1' : s.initializing = false := by
        cases hb : s.initializing
        · rfl
        · exact absurd hb h1
      rw [lsu_claim _ _ _ _ h1']
      simp [h1']
  · intro cv fv nm hcv hfv g hr t r hd
    have hi := inv_reachable hcv hr
    have := (hi.done_res t r hd).1
    rw [this]
    intro he
    exact hfv he.symm

/-- Witness for C2: thread 5 (the initializing thread) gets the
placeholder from `cTwoSlot`; in the two-thread trace, thread 0's final
value is not the placeholder. -/
theorem C2_placeholder_rule_witness :
    ((Stored.slot = Stored.slot ∨ Stored.slot = Stored.pv PyVal.none) ∧
      ((lockSection cTwoSlot Stored.slot 5 0 0).1 =
          LockOutcome.ret cTwoSlot.forward_value ↔
        (cTwoSlot.initializing = true ∧
          (cTwoSlot.initializing_thread_id = some 5 ∨
            (cTwoSlot.forward_value ≠ PyVal.none ∧ (0 : Int) > 0))))) ∧
    ((PyVal.obj 7 ≠ PyVal.none) ∧ (PyVal.none ≠ PyVal.obj 7) ∧
      (cOneFinal.pc 0 = PC.done (PyVal.obj 7)) ∧
      (PyVal.obj 7 ≠ PyVal.none)) :=
  ⟨⟨Or.inl rfl, C2_placeholder_rule.1 cTwoSlot Stored.slot 5 0 0 (Or.inl rfl)⟩,
   by decide, by decide, by decide,
   C2_placeholder_rule.2 (PyVal.obj 7) PyVal.none "value" (by decide) (by decide)
     cOneFinal cOneFinal_reachable 0 (PyVal.obj 7) (by decide)⟩

/-- C3: Same-thread re-entrancy: while a bound slot's computation is in
progress, a nested `__get__` from the initializing thread itself returns
`forward_value` immediately — the call returns in its first lock section
(no wait), changes no state beyond the fresh-event counter, and its result
does not depend on `compute` (so `self.func()` is not invoked again). -/
theorem C3_same_thread_reentrancy {E : Type} (typeof : PyVal → Nat)
    (s : LazyClassAttribute) (compute : Except E PyVal) (inst : Option PyVal)
    (c tid : Nat) (ctx : Ctx) (nm : String)
    (hname : s.name = some nm)
    (hU : ctx.storage = Stored.slot ∨ ctx.storage = Stored.pv PyVal.none)
    (h1 : s.initializing = true) (h2 : s.initializing_thread_id = some tid) :
    getFull typeof s compute inst (some c) tid ctx =
      (GetResult.ok s.forward_value, s, { ctx with nextEvent := ctx.nextEvent + 1 }) := by
  have hls : lockSection s ctx.storage tid (_get_init_depth ctx.depthCell)
      ctx.nextEvent = (LockOutcome.ret s.forward_value, s) := by
    rw [lockSection_unresolved _ _ hU, lsu_same_thread _ _ _ _ h1 h2]
  simp [getFull, hname, getBody, hls]

/-- Witness for C3: thread 5 re-reads `cTwoSlot` while initializing it and
gets the forward value back, with the slot unchanged. -/
theorem C3_same_thread_reentrancy_witness :
    (cTwoSlot.name = some "value") ∧
    (cCtx.storage = Stored.slot ∨ cCtx.storage = Stored.pv PyVal.none) ∧
    (cTwoSlot.initializing = true) ∧
    (cTwoSlot.initializing_thread_id = some 5) ∧
    (getFull (fun _ => 0) cTwoSlot (Except.error (0 : Nat)) Option.none (some 0) 5 cCtx =
      (GetResult.ok cTwoSlot.forward_value, cTwoSlot,
        { cCtx with nextEvent := cCtx.nextEvent + 1 })) :=
  ⟨rfl, Or.inl rfl, rfl, rfl,
    C3_same_thread_reentrancy (fun _ => 0) cTwoSlot (Except.error 0) Option.none
      0 5 cCtx "value" rfl (Or.inl rfl) rfl rfl⟩

/-- C5: Resolved short-circuit: if the owner storage for the slot's name
already holds a value that is not the descriptor and not `None`, a bound
slot's `__get__` returns that stored value directly — in its first lock
section, with the slot unchanged and independently of `compute`. -/
theorem C5_resolved_short_circuit {E : Type} (typeof : PyVal → Nat)
    (s : LazyClassAttribute) (compute : Except E PyVal) (inst : Option PyVal)
    (c tid : Nat) (ctx : Ctx) (nm : String) (v : PyVal)
    (hname : s.name = some nm)
    (hstor : ctx.storage = Stored.pv v) (hv : v ≠ PyVal.none) :
    getFull typeof s compute inst (some c) tid ctx =
      (GetResult.ok v, s, { ctx with nextEvent := ctx.nextEvent + 1 }) := by
  have hls : lockSection s ctx.storage tid (_get_init_depth ctx.depthCell)
      ctx.nextEvent = (LockOutcome.ret v, s) := by
    rw [hstor, lockSection_resolved _ _ hv]
  simp [getFull, hname, getBody, hls]

/-- Witness for C5: with storage resolved to `obj 9`, `__get__` on
`cTwoSlot` returns `obj 9` unchanged. -/
theorem C5_resolved_short_circuit_witness :
    (cTwoSlot.name = some "value") ∧
    ({ cCtx with storage := Stored.pv (PyVal.obj 9) }.storage =
      Stored.pv (PyVal.obj 9)) ∧
    (PyVal.obj 9 ≠ PyVal.none) ∧
    (getFull (fun _ => 0) cTwoSlot (Except.error (0 : Nat)) Option.none (some 0) 3
        { cCtx with storage := Stored.pv (PyVal.obj 9) } =
      (GetResult.ok (PyVal.obj 9), cTwoSlot,
        { cCtx with
          storage := Stored.pv (PyVal.obj 9)
          nextEvent := cCtx.nextEvent + 1 })) :=
  ⟨rfl, rfl, by decide,
    C5_resolved_short_circuit (fun _ => 0) cTwoSlot (Except.error 0) Option.none
      0 3 { cCtx with storage := Stored.pv (PyVal.obj 9) } "value" (PyVal.obj 9)
      rfl rfl (by decide)⟩

/-- An idle bound slot with unresolved storage: `__get__`'s body claims
initialization, runs `self.func()` successfully, publishes the value, and
the `finally` block restores the slot and signals the event. -/
theorem getBody_claim_ok (E : Type) (s : LazyClassAttribute) (v : PyVal)
    (tid : Nat) (ctx : Ctx) (hinit : s.initializing = false)
    (hU : ctx.storage = Stored.slot ∨ ctx.storage = Stored.pv PyVal.none) :
    getBody s (Except.ok v : Except E PyVal) tid ctx =
      (GetResult.ok v,
       { s with
         initializing := false
         initializing_thread_id := Option.none
         initialized_event := Option.none },
       { ctx with
         storage := Stored.pv v
         depthCell := _decrement_init_depth (_increment_init_depth ctx.depthCell)
         eventsSet := setFlag ctx.eventsSet ctx.nextEvent
         nextEvent := ctx.nextEvent + 1 }) := by
  have hls : lockSection s ctx.storage tid (_get_init_depth ctx.depthCell)
      ctx.nextEvent
      = (LockOutcome.claim ctx.nextEvent,
         { s with
           initializing := true
           initializing_thread_id := some tid
           initialized_event := some ctx.nextEvent }) := by
    rw [lockSection_unresolved _ _ hU, lsu_claim _ _ _ _ hinit]
  simp [getBody, hls, cleanup, storageVal]

/-- An idle bound slot with unresolved storage: `__get__`'s body claims
initialization, `self.func()` raises, and the `finally` block still
restores the slot, signals the event, and propagates the error. -/
theorem getBody_claim_error {E : Type} (s : LazyClassAttribute) (err : E)
    (tid : Nat) (ctx : Ctx) (hinit : s.initializing = false)
    (hU : ctx.storage = Stored.slot ∨ ctx.storage = Stored.pv PyVal.none) :
    getBody s (Except.error err) tid ctx =
      (GetResult.raised err,
       { s with
         initializing := false
         initializing_thread_id := Option.none
         initialized_event := Option.none },
       { ctx with
         depthCell := _decrement_init_depth (_increment_init_depth ctx.depthCell)
         eventsSet := setFlag ctx.eventsSet ctx.nextEvent
         nextEvent := ctx.nextEvent + 1 }) := by
  have hls : lockSection s ctx.storage tid (_get_init_depth ctx.depthCell)
      ctx.nextEvent
      = (LockOutcome.claim ctx.nextEvent,
         { s with
           initializing := true
           initializing_thread_id := some tid
           initialized_event := some ctx.nextEvent }) := by
    rw [lockSection_unresolved _ _ hU, lsu_claim _ _ _ _ hinit]
  simp [getBody, hls, cleanup]

/-- Incrementing and then decrementing a depth cell restores its depth,
provided the depth was non-negative. -/
theorem dec_inc_depth (cell : Option Int) (h : 0 ≤ _get_init_depth cell) :
    _get_init_depth (_decrement_init_depth (_increment_init_depth cell)) =
      _get_init_depth cell := by
  simp only [_increment_init_depth, _decrement_init_depth, _get_init_depth,
    Option.getD_some] at h ⊢
  split_ifs with h1
  · simp
    omega
  · simp

/-- C4: Failure cleanup and retry: when a call to `__get__` on an idle
bound slot triggers computation, then whether `self.func()` raises or
succeeds, the `finally` cleanup runs: the thread's depth counter returns
to its prior value, the slot reverts to idle (`_initializing` false,
`_initializing_thread_id` and `_initialized_event` cleared) and the
completion event is set (waking all blocked waiters); on failure the
exception propagates to the caller unmodified and storage is untouched,
and a subsequent call (from any thread) retries from the clean state and
succeeds. -/
theorem C4_failure_cleanup_and_retry {E : Type} (typeof : PyVal → Nat)
    (s : LazyClassAttribute) (err : E) (v w : PyVal) (nm : String)
    (c tid tid' : Nat) (ctx : Ctx)
    (hname : s.name = some nm) (hinit : s.initializing = false)
    (hU : ctx.storage = Stored.slot ∨ ctx.storage = Stored.pv PyVal.none)
    (hd : 0 ≤ _get_init_depth ctx.depthCell) :
    ((getFull typeof s (Except.error err) Option.none (some c) tid ctx).1 =
        GetResult.raised err ∧
      (getFull typeof s (Except.error err) Option.none (some c) tid ctx).2.1.initializing
          = false ∧
      (getFull typeof s (Except.error err) Option.none (some c) tid ctx).2.1.initializing_thread_id
          = Option.none ∧
      (getFull typeof s (Except.error err) Option.none (some c) tid ctx).2.1.initialized_event
          = Option.none ∧
      (getFull typeof s (Except.error err) Option.none (some c) tid ctx).2.2.storage
          = ctx.storage ∧
      _get_init_depth
          (getFull typeof s (Except.error err) Option.none (some c) tid ctx).2.2.depthCell
          = _get_init_depth ctx.depthCell ∧
      (getFull typeof s (Except.error err) Option.none (some c) tid ctx).2.2.eventsSet
          ctx.nextEvent = true) ∧
    (getFull typeof
        (getFull typeof s (Except.error err) Option.none (some c) tid ctx).2.1
        (Except.ok v : Except E PyVal) Option.none (some c) tid'
        (getFull typeof s (Except.error err) Option.none (some c) tid ctx).2.2).1 =
      GetResult.ok v ∧
    ((getFull typeof s (Except.ok w : Except E PyVal) Option.none (some c) tid ctx).1 =
        GetResult.ok w ∧
      (getFull typeof s (Except.ok w : Except E PyVal) Option.none (some c) tid ctx).2.1.initializing
          = false ∧
      (getFull typeof s (Except.ok w : Except E PyVal) Option.none (some c) tid ctx).2.1.initializing_thread_id
          = Option.none ∧
      (getFull typeof s (Except.ok w : Except E PyVal) Option.none (some c) tid ctx).2.1.initialized_event
          = Option.none ∧
      (getFull typeof s (Except.ok w : Except E PyVal) Option.none (some c) tid ctx).2.2.storage
          = Stored.pv w ∧
      _get_init_depth
          (getFull typeof s (Except.ok w : Except E PyVal) Option.none (some c) tid ctx).2.2.depthCell
          = _get_init_depth ctx.depthCell ∧
      (getFull typeof s (Except.ok w : Except E PyVal) Option.none (some c) tid ctx).2.2.eventsSet
          ctx.nextEvent = true) := by
  have hgf : ∀ (compute : Except E PyVal) (t : Nat),
      getFull typeof s compute Option.none (some c) t ctx =
        getBody s compute t ctx := by
    intro compute t
    simp [getFull, hname]
  have hfail := getBody_claim_error s err tid ctx hinit hU
  have hok := getBody_claim_ok E s w tid ctx hinit hU
  refine ⟨⟨?_, ?_, ?_, ?_, ?_, ?_, ?_⟩, ?_, ?_, ?_, ?_, ?_, ?_, ?_, ?_⟩
  · rw [hgf, hfail]
  · rw [hgf, hfail]
  · rw [hgf, hfail]
  · rw [hgf, hfail]
  · rw [hgf, hfail]
  · rw [hgf, hfail]
    exact dec_inc_depth ctx.depthCell hd
  · rw [hgf, hfail]
    simp [setFlag]
  · rw [hgf, hfail]
    have hgf2 : getFull typeof
        { s with
          initializing := false
          initializing_thread_id := Option.none
          initialized_event := Option.none }
        (Except.ok v : Except E PyVal) Option.none (some c) tid'
        { ctx with
          depthCell := _decrement_init_depth (_increment_init_depth ctx.depthCell)
          eventsSet := setFlag ctx.eventsSet ctx.nextEvent
          nextEvent := ctx.nextEvent + 1 } =
        getBody
          { s with
            initializing := false
            initializing_thread_id := Option.none
            initialized_event := Option.none }
          (Except.ok v : Except E PyVal) tid'
          { ctx with
            depthCell := _decrement_init_depth (_increment_init_depth ctx.depthCell)
            eventsSet := setFlag ctx.eventsSet ctx.nextEvent
            nextEvent := ctx.nextEvent + 1 } := by
      simp [getFull, hname]
    rw [hgf2,
      getBody_claim_ok E
        { s with
          initializing := false
          initializing_thread_id := Option.none
          initialized_event := Option.none }
        v tid'
        { ctx with
          depthCell := _decrement_init_depth (_increment_init_depth ctx.depthCell)
          eventsSet := setFlag ctx.eventsSet ctx.nextEvent
          nextEvent := ctx.nextEvent + 1 }
        rfl hU]
  · rw [hgf, hok]
  · rw [hgf, hok]
  · rw [hgf, hok]
  · rw [hgf, hok]
  · rw [hgf, hok]
  · rw [hgf, hok]
    exact dec_inc_depth ctx.depthCell hd
  · rw [hgf, hok]
    simp [setFlag]

/-- Witness for C4: a first call whose computation raises `0` cleans up
and a retry from thread 2 then succeeds; a succeeding first call also
cleans up. -/
theorem C4_failure_cleanup_and_retry_witness :
    (cIdleSlot.name = some "value") ∧
    (cIdleSlot.initializing = false) ∧
    (cCtx.storage = Stored.slot ∨ cCtx.storage = Stored.pv PyVal.none) ∧
    (0 ≤ _get_init_depth cCtx.depthCell) ∧
    ((cFourFail.1 = GetResult.raised 0 ∧
        cFourFail.2.1.initializing = false ∧
        cFourFail.2.1.initializing_thread_id = Option.none ∧
        cFourFail.2.1.initialized_event = Option.none ∧
        cFourFail.2.2.storage = cCtx.storage ∧
        _get_init_depth cFourFail.2.2.depthCell = _get_init_depth cCtx.depthCell ∧
        cFourFail.2.2.eventsSet cCtx.nextEvent = true) ∧
      cFourRetry.1 = GetResult.ok (PyVal.obj 3) ∧
      (cFourOk.1 = GetResult.ok (PyVal.obj 4) ∧
        cFourOk.2.1.initializing = false ∧
        cFourOk.2.1.initializing_thread_id = Option.none ∧
        cFourOk.2.1.initialized_event = Option.none ∧
        cFourOk.2.2.storage = Stored.pv (PyVal.obj 4) ∧
        _get_init_depth cFourOk.2.2.depthCell = _get_init_depth cCtx.depthCell ∧
        cFourOk.2.2.eventsSet cCtx.nextEvent = true)) :=
  ⟨rfl, rfl, Or.inl rfl, by decide,
    C4_failure_cleanup_and_retry (fun _ => 0) cIdleSlot 0 (PyVal.obj 3)
      (PyVal.obj 4) "value" 0 1 2 cCtx rfl rfl (Or.inl rfl) (by decide)⟩

/-- C6: Precondition errors: `__get__` with neither instance nor class
raises `TypeError` (the spec's `InvalidCallError`); `__get__` on a slot
not bound to a name (with the owner resolvable from a class, or from an
instance) raises `AttributeError` (the spec's `BindingError`); in every
case the slot and the surrounding state are returned unchanged and the
result does not depend on `compute` (so `self.func()` is not invoked).
When both preconditions fail at once, the class check runs first, so the
`TypeError` wins. -/
theorem C6_precondition_errors {E : Type} (typeof : PyVal → Nat)
    (s : LazyClassAttribute) (compute : Except E PyVal) (tid : Nat) (ctx : Ctx) :
    (getFull typeof s compute Option.none Option.none tid ctx =
      (GetResult.typeError, s, ctx)) ∧
    (∀ (inst : Option PyVal) (c : Nat), s.name = Option.none →
      getFull typeof s compute inst (some c) tid ctx =
        (GetResult.attributeError, s, ctx)) ∧
    (∀ i : PyVal, s.name = Option.none →
      getFull typeof s compute (some i) Option.none tid ctx =
        (GetResult.attributeError, s, ctx)) := by
  refine ⟨rfl, ?_, ?_⟩
  · intro inst c h
    simp [getFull, h]
  · intro i h
    simp [getFull, h]

/-- Witness for C6: the unbound default slot raises `AttributeError` when
the owner is resolvable, and any slot raises `TypeError` with neither
instance nor class. -/
theorem C6_precondition_errors_witness :
    (getFull (fun _ => 0) LazyClassAttribute.initDefault
        (Except.error (0 : Nat)) Option.none Option.none 1 cCtx =
      (GetResult.typeError, LazyClassAttribute.initDefault, cCtx)) ∧
    (LazyClassAttribute.initDefault.name = Option.none) ∧
    (getFull (fun _ => 0) LazyClassAttribute.initDefault
        (Except.error (0 : Nat)) (some (PyVal.obj 2)) (some 0) 1 cCtx =
      (GetResult.attributeError, LazyClassAttribute.initDefault, cCtx)) ∧
    (getFull (fun _ => 0) LazyClassAttribute.initDefault
        (Except.error (0 : Nat)) (some (PyVal.obj 2)) Option.none 1 cCtx =
      (GetResult.attributeError, LazyClassAttribute.initDefault, cCtx)) :=
  ⟨(C6_precondition_errors (fun _ => 0) LazyClassAttribute.initDefault
      (Except.error 0) 1 cCtx).1,
   rfl,
   (C6_precondition_errors (fun _ => 0) LazyClassAttribute.initDefault
      (Except.error 0) 1 cCtx).2.1 (some (PyVal.obj 2)) 0 rfl,
   (C6_precondition_errors (fun _ => 0) LazyClassAttribute.initDefault
      (Except.error 0) 1 cCtx).2.2 (PyVal.obj 2) rfl⟩

/-- The body of `__get__` (past the preamble) never produces the
no-owner `TypeError`. -/
theorem getBody_ne_typeError {E : Type} (s : LazyClassAttribute)
    (compute : Except E PyVal) (tid : Nat) (ctx : Ctx) :
    (getBody s compute tid ctx).1 ≠ GetResult.typeError := by
  rcases hls : lockSection s ctx.storage tid (_get_init_depth ctx.depthCell)
    ctx.nextEvent with ⟨o, s'⟩
  cases o with
  | ret v => simp [getBody, hls]
  | wait e => simp [getBody, hls]
  | claim e => cases compute <;> simp [getBody, hls]

/-- C9: Owner resolution from instance: `__get__` with a non-`None`
instance and no class behaves exactly as if the instance's type had been
passed as the class, and the no-owner `TypeError` occurs precisely when
both the instance and the class are absent. -/
theorem C9_owner_resolution_from_instance {E : Type} (typeof : PyVal → Nat)
    (s : LazyClassAttribute) (compute : Except E PyVal) (tid : Nat) (ctx : Ctx) :
    (∀ i : PyVal,
      getFull typeof s compute (some i) Option.none tid ctx =
        getFull typeof s compute (some i) (some (typeof i)) tid ctx) ∧
    (∀ (inst : Option PyVal) (cls : Option Nat),
      (getFull typeof s compute inst cls tid ctx).1 = GetResult.typeError ↔
        inst = Option.none ∧ cls = Option.none) := by
  constructor
  · intro i
    rfl
  · intro inst cls
    constructor
    · intro h
      cases cls with
      | none =>
        cases inst with
        | none => exact ⟨rfl, rfl⟩
        | some i =>
          exfalso
          cases hn : s.name with
          | none =>
            rw [show getFull typeof s compute (some i) Option.none tid ctx =
                (GetResult.attributeError, s, ctx) by simp [getFull, hn]] at h
            cases h
          | some nm =>
            rw [show getFull typeof s compute (some i) Option.none tid ctx =
                getBody s compute tid ctx by simp [getFull, hn]] at h
            exact getBody_ne_typeError s compute tid ctx h
      | some c =>
        exfalso
        cases hn : s.name with
        | none =>
          rw [show getFull typeof s compute inst (some c) tid ctx =
              (GetResult.attributeError, s, ctx) by simp [getFull, hn]] at h
          cases h
        | some nm =>
          rw [show getFull typeof s compute inst (some c) tid ctx =
              getBody s compute tid ctx by simp [getFull, hn]] at h
          exact getBody_ne_typeError s compute tid ctx h
    · intro h
      rw [h.1, h.2]
      rfl

theorem runOps_append (a b : List DepthOp) (cell : Option Int) :
    runOps (a ++ b) cell = runOps b (runOps a cell) := by
  induction a generalizing cell with
  | nil => rfl
  | cons op rest ih => cases op <;> simp [runOps, ih]

/-- `_decrement_init_depth` never stores a negative value, whatever the
cell held. -/
theorem dec_depth_nonneg (cell : Option Int) :
    0 ≤ _get_init_depth (_decrement_init_depth cell) := by
  simp only [_decrement_init_depth, _get_init_depth]
  split_ifs with h
  · simp
  · simp
    omega

/-- Replaying any operation sequence on a cell with non-negative depth
keeps the depth non-negative. -/
theorem runOps_nonneg (ops : List DepthOp) (cell : Option Int)
    (h : 0 ≤ _get_init_depth cell) : 0 ≤ _get_init_depth (runOps ops cell) := by
  induction ops generalizing cell with
  | nil => exact h
  | cons op rest ih =>
    cases op with
    | enter =>
      refine ih (_increment_init_depth cell) ?_
      simp only [_increment_init_depth, _get_init_depth, Option.getD_some] at h ⊢
      omega
    | leave => exact ih (_decrement_init_depth cell) (dec_depth_nonneg cell)

/-- Decrementing a cell whose depth is `d + 1` (with `d ≥ 0`) leaves
depth `d`. -/
theorem dec_depth_get (cell : Option Int) (d : Int) (hd : 0 ≤ d)
    (h : _get_init_depth cell = d + 1) :
    _get_init_depth (_decrement_init_depth cell) = d := by
  simp only [_decrement_init_depth, _get_init_depth] at h ⊢
  rw [h]
  split_ifs with h1
  · simp
    omega
  · simp

/-- Replaying a well-nested operation sequence restores the depth of any
cell whose depth was non-negative. -/
theorem runOps_balanced {ops : List DepthOp} (h : BalancedOps ops) :
    ∀ cell : Option Int, 0 ≤ _get_init_depth cell →
      _get_init_depth (runOps ops cell) = _get_init_depth cell := by
  induction h with
  | nil =>
    intro cell _
    rfl
  | @node w w' hw hw' ihw ihw' =>
    intro cell hc
    have hstep : runOps (DepthOp.enter :: w ++ DepthOp.leave :: w') cell =
        runOps (DepthOp.leave :: w') (runOps w (_increment_init_depth cell)) := by
      rw [show (DepthOp.enter :: w ++ DepthOp.leave :: w') =
          DepthOp.enter :: (w ++ DepthOp.leave :: w') from rfl]
      rw [runOps, runOps_append]
    rw [hstep]
    have hinc : _get_init_depth (_increment_init_depth cell) =
        _get_init_depth cell + 1 := by
      simp [_increment_init_depth, _get_init_depth]
    have hw_get : _get_init_depth (runOps w (_increment_init_depth cell)) =
        _get_init_depth cell + 1 := by
      rw [ihw (_increment_init_depth cell) (by rw [hinc]; omega), hinc]
    rw [runOps]
    have hdec : _get_init_depth
        (_decrement_init_depth (runOps w (_increment_init_depth cell))) =
        _get_init_depth cell :=
      dec_depth_get _ _ hc hw_get
    rw [ihw' _ (by rw [hdec]; exact hc), hdec]

/-- C7: Depth counter hygiene: decrement is floored at zero, so the
per-thread depth never goes negative under any (even mismatched) sequence
of enter/leave operations; and after any top-level `__get__` completes on
a thread — i.e. after replaying the well-nested operation sequence its
(possibly nested, possibly failing) initializations performed, since the
`finally` block pairs every increment with one decrement — the thread's
depth is back at 0. -/
theorem C7_depth_counter_hygiene :
    (∀ cell : Option Int, 0 ≤ _get_init_depth (_decrement_init_depth cell)) ∧
    (∀ (ops : List DepthOp) (cell : Option Int),
      0 ≤ _get_init_depth cell → 0 ≤ _get_init_depth (runOps ops cell)) ∧
    (∀ (ops : List DepthOp) (cell : Option Int), BalancedOps ops →
      _get_init_depth cell = 0 → _get_init_depth (runOps ops cell) = 0) := by
  refine ⟨dec_depth_nonneg, runOps_nonneg, ?_⟩
  intro ops cell hb h0
  rw [runOps_balanced hb cell (by omega), h0]

/-- Witness for C7: a mismatched sequence (two leaves, one enter) keeps
the unset cell non-negative, and the nested well-nested sequence
`enter (enter leave) leave` returns the depth to 0. -/
theorem C7_depth_counter_hygiene_witness :
    (0 ≤ _get_init_depth (_decrement_init_depth Option.none)) ∧
    ((0 : Int) ≤ _get_init_depth Option.none ∧
      0 ≤ _get_init_depth
        (runOps [DepthOp.leave, DepthOp.leave, DepthOp.enter] Option.none)) ∧
    (BalancedOps [DepthOp.enter, DepthOp.enter, DepthOp.leave, DepthOp.leave] ∧
      _get_init_depth (Option.none : Option Int) = 0 ∧
      _get_init_depth
        (runOps [DepthOp.enter, DepthOp.enter, DepthOp.leave, DepthOp.leave]
          Option.none) = 0) :=
  ⟨C7_depth_counter_hygiene.1 Option.none,
   ⟨by decide,
    C7_depth_counter_hygiene.2.1 [DepthOp.leave, DepthOp.leave, DepthOp.enter]
      Option.none (by decide)⟩,
   ⟨BalancedOps.node (BalancedOps.node BalancedOps.nil BalancedOps.nil)
      BalancedOps.nil,
    by decide,
    C7_depth_counter_hygiene.2.2
      [DepthOp.enter, DepthOp.enter, DepthOp.leave, DepthOp.leave] Option.none
      (BalancedOps.node (BalancedOps.node BalancedOps.nil BalancedOps.nil)
        BalancedOps.nil)
      (by decide)⟩⟩

/-- C8: Binding is first-wins and idempotent: `__set_name__` fixes the
name on the first attachment of an unbound slot; on an already-bound slot
it is a no-op (for the same or a different name), so any later binding
leaves the name unchanged. -/
theorem C8_first_bind_wins (s : LazyClassAttribute) (n m : String) :
    (s.name = Option.none → (s.set_name n).name = some n) ∧
    (∀ k, s.name = some k → s.set_name n = s) ∧
    (s.set_name n).set_name m = s.set_name n := by
  refine ⟨?_, ?_, ?_⟩
  · intro h
    simp [LazyClassAttribute.set_name, h]
  · intro k h
    simp [LazyClassAttribute.set_name, h]
  · by_cases h : s.name = Option.none
    · simp [LazyClassAttribute.set_name, h]
    · simp [LazyClassAttribute.set_name, h]

/-- Witness for C8: binding the unbound default slot to `"a"` fixes the
name; rebinding an already-bound slot to `"b"` is a no-op. -/
theorem C8_first_bind_wins_witness :
    (LazyClassAttribute.initDefault.name = Option.none ∧
      (LazyClassAttribute.initDefault.set_name "a").name = some "a") ∧
    (cTwoSlot.name = some "value" ∧ cTwoSlot.set_name "b" = cTwoSlot) ∧
    (LazyClassAttribute.initDefault.set_name "a").set_name "b" =
      LazyClassAttribute.initDefault.set_name "a" :=
  ⟨⟨rfl, (C8_first_bind_wins LazyClassAttribute.initDefault "a" "b").1 rfl⟩,
   ⟨rfl, (C8_first_bind_wins cTwoSlot "b" "b").2.1 "value" rfl⟩,
   (C8_first_bind_wins LazyClassAttribute.initDefault "a" "b").2.2⟩

/-- C10: Absent forward value defaults to `None`: a slot constructed
without an explicit `forward_value` has `forward_value = None`; while such
a slot is initializing, a same-thread re-entrant lock section returns
`None` (not an error), and a cross-thread lock section falls through to
waiting whatever the caller's depth is (the depth>0 placeholder branch is
disabled because it requires a non-`None` forward value). -/
theorem C10_absent_forward_value_defaults_none :
    LazyClassAttribute.initDefault.forward_value = PyVal.none ∧
    (∀ nm : Option String,
      (LazyClassAttribute.init nm PyVal.none).forward_value = PyVal.none) ∧
    (∀ (s : LazyClassAttribute) (storage : Stored) (tid : Nat) (d : Int)
        (fresh : Nat),
      (storage = Stored.slot ∨ storage = Stored.pv PyVal.none) →
      s.forward_value = PyVal.none →
      s.initializing = true →
      ((s.initializing_thread_id = some tid →
          lockSection s storage tid d fresh = (LockOutcome.ret PyVal.none, s)) ∧
        (s.initializing_thread_id ≠ some tid →
          ∃ (e : Nat) (s' : LazyClassAttribute),
            lockSection s storage tid d fresh = (LockOutcome.wait e, s')))) := by
  refine ⟨rfl, fun _ => rfl, ?_⟩
  intro s storage tid d fresh hU hfv h1
  constructor
  · intro h2
    rw [lockSection_unresolved _ _ hU, lsu_same_thread _ _ _ _ h1 h2, hfv]
  · intro h2
    have h4 : ¬(s.forward_value ≠ PyVal.none ∧ d > 0) := by
      simp [hfv]
    cases he : s.initialized_event with
    | some e =>
      exact ⟨e, s, by rw [lockSection_unresolved _ _ hU,
        lsu_wait_some _ _ _ _ e h1 h2 h4 he]⟩
    | none =>
      exact ⟨fresh, { s with initialized_event := some fresh },
        by rw [lockSection_unresolved _ _ hU,
          lsu_wait_none _ _ _ _ h1 h2 h4 he]⟩

/-- Witness for C10: the default-constructed slot has forward value
`None`; thread 5 re-entering `cTenSlot` gets `None`; thread 6, even at
depth 3, must wait. -/
theorem C10_absent_forward_value_witness :
    (Stored.slot = Stored.slot ∨ Stored.slot = Stored.pv PyVal.none) ∧
    (cTenSlot.forward_value = PyVal.none) ∧
    (cTenSlot.initializing = true) ∧
    ((cTenSlot.initializing_thread_id = some 5 →
        lockSection cTenSlot Stored.slot 5 3 0 = (LockOutcome.ret PyVal.none, cTenSlot)) ∧
      (cTenSlot.initializing_thread_id ≠ some 6 →
        ∃ (e : Nat) (s' : LazyClassAttribute),
          lockSection cTenSlot Stored.slot 6 3 0 = (LockOutcome.wait e, s'))) :=
  ⟨Or.inl rfl, rfl, rfl,
   (C10_absent_forward_value_defaults_none.2.2 cTenSlot Stored.slot 5 3 0
      (Or.inl rfl) rfl rfl).1,
   (C10_absent_forward_value_defaults_none.2.2 cTenSlot Stored.slot 6 3 0
      (Or.inl rfl) rfl rfl).2⟩
